import Mathlib

/-!
Verification development for the order service repository
(broker consumption, validation, retry-guarded transactional
persistence, dead-letter routing, TTL read-through cache).

Shallow embedding conventions:
* Go `time.Duration` values are nanoseconds, modelled as `Nat`.
* Go `time.Time` instants are modelled as `Int` (the zero value is `0`,
  matching `time.Time.IsZero`).
* Go machine integers are modelled as `Int` (`Nat` where the source value
  is a count).
* SQL tables keyed by `order_uid` are modelled as association lists; the
  `items` table keeps insertion order (its `SERIAL` primary key orders
  reads).
* Fallible Go functions return an `Option String` error (or pair it with
  the updated state).
-/

set_option maxRecDepth 4000

namespace OrderService

/-- Delivery block of an order (internal/models/order.go, struct Delivery).
The `OrderUID` column is the association-list key and is not repeated in
the row. -/
structure Delivery where
  name : String
  phone : String
  zip : String
  city : String
  address : String
  region : String
  email : String
deriving DecidableEq, Repr

/-- Payment block of an order (internal/models/order.go, struct Payment). -/
structure Payment where
  transaction : String
  requestID : String
  currency : String
  provider : String
  amount : Int
  paymentDT : Int
  bank : String
  deliveryCost : Int
  goodsTotal : Int
  customFee : Int
deriving DecidableEq, Repr

/-- One item of an order (internal/models/order.go, struct Item). -/
structure Item where
  chrtID : Int
  trackNumber : String
  price : Int
  rid : String
  name : String
  sale : Int
  size : String
  totalPrice : Int
  nmID : Int
  brand : String
  status : Int
deriving DecidableEq, Repr

/-- The order aggregate (internal/models/order.go, struct Order). -/
structure Order where
  orderUID : String
  trackNumber : String
  entry : String
  delivery : Delivery
  payment : Payment
  items : List Item
  locale : String
  internalSignature : String
  customerID : String
  deliveryService : String
  shardKey : String
  smID : Int
  dateCreated : Int
  oofShard : String
deriving DecidableEq, Repr

/-- Go's `strings.TrimSpace`: strip leading and trailing whitespace.
Modelled over the character list with Lean's `Char.isWhitespace`
(coincides with `unicode.IsSpace` on the ASCII whitespace the repository
uses). -/
def trimSpace (s : String) : String :=
  String.mk (((s.data.dropWhile Char.isWhitespace).reverse.dropWhile
    Char.isWhitespace).reverse)

/-- `(*Delivery).Validate` from internal/models/order.go (the manual
field-by-field variant): first failing check wins. -/
def Delivery.validate (d : Delivery) : Option String :=
  if trimSpace d.name = "" then some "delivery.name is required" else
  if trimSpace d.phone = "" then some "delivery.phone is required" else
  if trimSpace d.zip = "" then some "delivery.zip is required" else
  if trimSpace d.city = "" then some "delivery.city is required" else
  if trimSpace d.address = "" then some "delivery.address is required" else
  if trimSpace d.region = "" then some "delivery.region is required" else
  if trimSpace d.email = "" then some "delivery.email is required" else
  none

/-- `(*Payment).Validate` from internal/models/order.go. -/
def Payment.validate (p : Payment) : Option String :=
  if trimSpace p.transaction = "" then some "payment.transaction is required" else
  if trimSpace p.currency = "" then some "payment.currency is required" else
  if trimSpace p.provider = "" then some "payment.provider is required" else
  if p.amount < 0 then some "payment.amount must be nonnegative" else
  if p.paymentDT ≤ 0 then some "payment.payment_dt must be positive" else
  if trimSpace p.bank = "" then some "payment.bank is required" else
  if p.deliveryCost < 0 ∨ p.goodsTotal < 0 ∨ p.customFee < 0 then
    some "payment cost fields must be nonnegative" else
  none

/-- `(*Item).Validate` from internal/models/order.go. -/
def Item.validate (it : Item) : Option String :=
  if it.chrtID = 0 then some "item.chrt_id must be non-zero" else
  if trimSpace it.trackNumber = "" then some "item.track_number is required" else
  if it.price < 0 ∨ it.totalPrice < 0 then some "item price fields must be nonnegative" else
  if trimSpace it.rid = "" then some "item.rid is required" else
  if trimSpace it.name = "" then some "item.name is required" else
  if trimSpace it.size = "" then some "item.size is required" else
  if it.nmID = 0 then some "item.nm_id must be non-zero" else
  if trimSpace it.brand = "" then some "item.brand is required" else
  none

/-- The item loop at the end of `(*Order).Validate`: first failing item
determines the error. -/
def validateItems : List Item → Option String
  | [] => none
  | it :: rest =>
    match it.validate with
    | some e => some e
    | none => validateItems rest

/-- `(*Order).Validate` from internal/models/order.go (the manual
variant; the `nil`-receiver check has no counterpart for a value-typed
embedding). -/
def Order.validate (o : Order) : Option String :=
  if trimSpace o.orderUID = "" then some "order_uid is required" else
  if trimSpace o.trackNumber = "" then some "track_number is required" else
  if trimSpace o.entry = "" then some "entry is required" else
  if trimSpace o.locale = "" then some "locale is required" else
  if trimSpace o.customerID = "" then some "customer_id is required" else
  if trimSpace o.deliveryService = "" then some "delivery_service is required" else
  if trimSpace o.shardKey = "" then some "shardkey is required" else
  if o.smID = 0 then some "sm_id must be non-zero" else
  if trimSpace o.oofShard = "" then some "oof_shard is required" else
  match o.delivery.validate with
  | some e => some e
  | none =>
    match o.payment.validate with
    | some e => some e
    | none =>
      if o.items = [] then some "items must contain at least one item"
      else validateItems o.items

/-- Scalar columns of the `orders` table (internal/database/queries.go,
`CreateOrdersTable`); the primary key `order_uid` is the association-list
key. -/
structure OrderRow where
  trackNumber : String
  entry : String
  locale : String
  internalSignature : String
  customerID : String
  deliveryService : String
  shardKey : String
  smID : Int
  dateCreated : Int
  oofShard : String
deriving DecidableEq, Repr

/-- The row `SaveOrderQuery` writes for an order. -/
def Order.headerRow (o : Order) : OrderRow :=
  ⟨o.trackNumber, o.entry, o.locale, o.internalSignature, o.customerID,
    o.deliveryService, o.shardKey, o.smID, o.dateCreated, o.oofShard⟩

/-- Lookup in a table keyed by `order_uid`. -/
def lookupA {α : Type} : List (String × α) → String → Option α
  | [], _ => none
  | (k, v) :: rest, key => if k = key then some v else lookupA rest key

/-- `INSERT ... ON CONFLICT (order_uid) DO UPDATE`: the row for the key is
replaced, other rows are untouched. -/
def upsertA {α : Type} (k : String) (v : α) (l : List (String × α)) :
    List (String × α) :=
  (k, v) :: l.filter (fun p => !(p.1 == k))

/-- The relational state: the four tables of internal/database/queries.go.
`items` keeps insertion order (reads are `ORDER BY id`, the `SERIAL`
key). -/
structure DB where
  orders : List (String × OrderRow)
  delivery : List (String × Delivery)
  payment : List (String × Payment)
  items : List (String × Item)
deriving DecidableEq, Repr

def emptyDB : DB := ⟨[], [], [], []⟩

/-- `SaveOrderQuery` applied to the transaction state. -/
def dbUpsertOrder (db : DB) (o : Order) : DB :=
  { db with orders := upsertA o.orderUID o.headerRow db.orders }

/-- `SaveDeliveryQuery` applied to the transaction state. -/
def dbUpsertDelivery (db : DB) (o : Order) : DB :=
  { db with delivery := upsertA o.orderUID o.delivery db.delivery }

/-- `SavePaymentQuery` applied to the transaction state. -/
def dbUpsertPayment (db : DB) (o : Order) : DB :=
  { db with payment := upsertA o.orderUID o.payment db.payment }

/-- `DeleteItemsQuery`: drop every item row of the identifier. -/
def dbDeleteItems (db : DB) (uid : String) : DB :=
  { db with items := db.items.filter (fun p => !(p.1 == uid)) }

/-- `SaveItemQuery`: append one item row (`SERIAL` id = position). -/
def dbInsertItem (db : DB) (uid : String) (it : Item) : DB :=
  { db with items := db.items ++ [(uid, it)] }

/-- `GetItemsByOrderUIDQuery`: item rows of the identifier in id order. -/
def itemsFor (db : DB) (uid : String) : List Item :=
  (db.items.filter (fun p => p.1 == uid)).map Prod.snd

/-- The individual statements of the `SaveOrder` transaction
(internal/database/postgres.go lines 174-280), used to index a failure
oracle: `fail s = true` means the statement `s` returns an error on this
attempt. -/
inductive SaveStep where
  | txBegin
  | upsertOrder
  | upsertDelivery
  | upsertPayment
  | deleteItems
  | insertItem (i : ℕ)
  | txCommit
deriving DecidableEq, Repr

/-- The item-insert loop of `SaveOrder`: inserts items one by one into the
transaction state, stopping at the first failing statement. -/
def insertItemsLoop (fail : SaveStep → Bool) (uid : String) :
    List Item → ℕ → DB → Except String DB
  | [], _, db => Except.ok db
  | it :: rest, i, db =>
    if fail (SaveStep.insertItem i) then Except.error "item insert failed"
    else insertItemsLoop fail uid rest (i + 1) (dbInsertItem db uid it)

/-- The transaction body of `SaveOrder` run against the snapshot `db`:
returns the transaction-local state, the `shouldRollback` flag (set on
entry, cleared only after a successful commit, exactly as the deferred
rollback in the Go source), and the error. -/
def saveOrderBody (fail : SaveStep → Bool) (db : DB) (o : Order) :
    DB × Bool × Option String :=
  if fail SaveStep.upsertOrder then (db, true, some "order upsert failed") else
  let db1 := dbUpsertOrder db o
  if fail SaveStep.upsertDelivery then (db1, true, some "delivery upsert failed") else
  let db2 := dbUpsertDelivery db1 o
  if fail SaveStep.upsertPayment then (db2, true, some "payment upsert failed") else
  let db3 := dbUpsertPayment db2 o
  if fail SaveStep.deleteItems then (db3, true, some "item delete failed") else
  let db4 := dbDeleteItems db3 o.orderUID
  match insertItemsLoop fail o.orderUID o.items 0 db4 with
  | Except.error e => (db4, true, some e)
  | Except.ok db5 =>
    if fail SaveStep.txCommit then (db5, true, some "commit failed")
    else (db5, false, none)

/-- One attempt of `(*Postgres).SaveOrder`: begin a transaction, run the
body, and either roll back (discarding the transaction-local state) or
keep the committed state. -/
def saveOrderAttempt (fail : SaveStep → Bool) (db : DB) (o : Order) :
    DB × Option String :=
  if fail SaveStep.txBegin then (db, some "tx begin failed")
  else
    match saveOrderBody fail db o with
    | (txDb, shouldRollback, err) =>
      if shouldRollback then (db, err) else (txDb, err)

/-- The state `SaveOrder` leaves behind when the whole transaction
commits. -/
def savedDB (db : DB) (o : Order) : DB :=
  { orders := upsertA o.orderUID o.headerRow db.orders
    delivery := upsertA o.orderUID o.delivery db.delivery
    payment := upsertA o.orderUID o.payment db.payment
    items := db.items.filter (fun p => !(p.1 == o.orderUID)) ++
      o.items.map (fun it => (o.orderUID, it)) }

/-- `(*Postgres).GetOrder`, read part: the single-round-trip
`JOIN` of orders, delivery and payment (no row unless all three exist)
plus the ordered item query. -/
def dbGetOrder (db : DB) (uid : String) : Option Order :=
  match lookupA db.orders uid, lookupA db.delivery uid, lookupA db.payment uid with
  | some h, some d, some p =>
    some ⟨uid, h.trackNumber, h.entry, d, p, itemsFor db uid, h.locale,
      h.internalSignature, h.customerID, h.deliveryService, h.shardKey,
      h.smID, h.dateCreated, h.oofShard⟩
  | _, _, _ => none

/-! TTL cache (internal/cache, the TTL snapshot used by the service:
`cache.New(ttl)`). The backing map is an association list from order
identifier to the cached order plus its absolute expiry instant. -/

abbrev CacheMap := List (String × Order × Int)

/-- `(*Cache).Set`: insert or overwrite with expiry `now + ttl`. -/
def cacheSet (now ttl : Int) (c : CacheMap) (o : Order) : CacheMap :=
  upsertA o.orderUID (o, now + ttl) c

/-- `(*Cache).Get`: absent key or expired entry (`time.Now().After`,
i.e. strictly later than the expiry) reads as not found; the backing map
is not modified. -/
def cacheGet (now : Int) (c : CacheMap) (uid : String) : Option Order :=
  match lookupA c uid with
  | none => none
  | some (o, exp) => if now > exp then none else some o

/-- `(*Cache).Cleanup`: eagerly delete every expired entry. -/
def cacheCleanup (now : Int) (c : CacheMap) : CacheMap :=
  c.filter (fun e => !(decide (now > e.2.2)))

/-- `(*Cache).Size`: count only the non-expired entries. -/
def cacheSize (now : Int) (c : CacheMap) : ℕ :=
  (c.filter (fun e => !(decide (now > e.2.2)))).length

/-- Combined state the Order Service acts on. -/
structure Sys where
  db : DB
  cache : CacheMap
deriving DecidableEq, Repr

def sysEmpty : Sys := ⟨emptyDB, []⟩

/-- Result of one `(*Service).GetOrder` call: the updated state, the
returned order (`none` is the surfaced error), and whether the durable
store was consulted at all. -/
structure GetOutcome where
  sys : Sys
  result : Option Order
  storeAccessed : Bool
deriving DecidableEq, Repr

/-- `(*Service).GetOrder` (internal/service/service.go lines 105-145):
cache first; on a miss read the store and backfill; a store miss is
surfaced and nothing is cached. -/
def serviceGetOrder (now ttl : Int) (s : Sys) (uid : String) : GetOutcome :=
  match cacheGet now s.cache uid with
  | some o => ⟨s, some o, false⟩
  | none =>
    match dbGetOrder s.db uid with
    | none => ⟨s, none, true⟩
    | some o => ⟨⟨s.db, cacheSet now ttl s.cache o⟩, some o, true⟩

/-- The retry loop of `DoWithContext` specialised to the `SaveOrder`
closure (which mutates the database): each attempt re-runs the whole
transaction from the state the previous attempt left (unchanged, because
failed attempts roll back). The service's context is a fresh 10-second
timeout; cancellation is not modelled on this path. -/
def retrySaveLoop (fail : ℕ → SaveStep → Bool) (o : Order) :
    ℕ → ℕ → DB → Option String → DB × Option String
  | _, 0, db, lastErr => (db, lastErr)
  | attempt, rem + 1, db, _ =>
    match saveOrderAttempt (fail attempt) db o with
    | (db1, none) => (db1, none)
    | (db1, some e) =>
      if rem = 0 then (db1, some e)
      else retrySaveLoop fail o (attempt + 1) rem db1 (some e)

/-- The creation-timestamp defaulting at the top of
`(*Service).ProcessOrder`. -/
def dateDefault (now : Int) (o : Order) : Order :=
  if o.dateCreated = 0 then { o with dateCreated := now } else o

/-- `(*Service).ProcessOrder` (internal/service/service.go lines 75-102):
default the creation timestamp, save under the heavy retry policy (5
attempts), and on success add the order to the cache. No validation is
performed on this path. -/
def processOrder (now ttl : Int) (fail : ℕ → SaveStep → Bool) (s : Sys)
    (o : Order) : Sys × Option String :=
  let o1 := dateDefault now o
  match retrySaveLoop fail o1 0 5 s.db none with
  | (db1, some e) => (⟨db1, s.cache⟩, some e)
  | (db1, none) => (⟨db1, cacheSet now ttl s.cache o1⟩, none)

/-! Retry Executor (internal/retry, `DoWithContext`). Durations are
nanoseconds. The `float64` backoff factor is modelled as the rational
`factorNum / factorDen`; the Go update
`backoff = time.Duration(float64(backoff) * factor)` truncates the
product toward zero, modelled by natural floor division (exact for the
factors 2.0, 1.5 and 2.5 the repository uses, whose products stay well
inside the exact range of `float64`). -/

/-- `retry.Policy`. `maxAttempts` is a Go `int` and may be non-positive. -/
structure Policy where
  maxAttempts : Int
  initialBackoff : ℕ
  maxBackoff : ℕ
  factorNum : ℕ
  factorDen : ℕ
  jitter : Bool
deriving DecidableEq, Repr

/-- `retry.DefaultPolicy()`: 3 attempts, 100ms initial, 10s cap,
factor 2.0, jitter on. -/
def defaultPolicy : Policy := ⟨3, 100000000, 10000000000, 2, 1, true⟩

/-- `retry.LightPolicy()`: 2 attempts, 50ms initial, 1s cap, factor 1.5,
jitter on. -/
def lightPolicy : Policy := ⟨2, 50000000, 1000000000, 3, 2, true⟩

/-- `retry.HeavyPolicy()`: 5 attempts, 200ms initial, 30s cap, factor 2.5,
jitter on. -/
def heavyPolicy : Policy := ⟨5, 200000000, 30000000000, 5, 2, true⟩

/-- The attempt bound after the normalisation at the top of
`DoWithContext`: a non-positive `MaxAttempts` becomes 1. -/
def normMax (p : Policy) : ℕ :=
  if p.maxAttempts ≤ 0 then 1 else p.maxAttempts.toNat

/-- Observable cancellation schedule of a Go context, by the two points
where `DoWithContext` polls it: the non-blocking `select` at the top of
iteration `a` (`doneAtTop a`), and the blocking wait after attempt `a`,
where `cancelDuringWait a = true` means the context fired before the
backoff timer. -/
structure RetryCtx where
  doneAtTop : ℕ → Bool
  cancelDuringWait : ℕ → Bool

/-- A context that never cancels. -/
def neverCancelCtx : RetryCtx := ⟨fun _ => false, fun _ => false⟩

/-- Errors `DoWithContext` can return: an operation error (numbered by
the caller's schedule) or the context's cancellation error. -/
inductive RetryErr where
  | op (code : ℕ)
  | ctxCanceled
deriving DecidableEq, Repr

/-- Per-iteration delay computation of `DoWithContext` (order.go
source lines: `delay := backoff`, add jitter when enabled, then cap at
`MaxBackoff`). `j` is the jitter draw, in `[0, backoff/2)` in the
source. -/
def computeDelay (p : Policy) (backoff j : ℕ) : ℕ :=
  let d := if p.jitter then backoff + j else backoff
  if d > p.maxBackoff then p.maxBackoff else d

/-- Outcome of a `DoWithContext` run: the returned error (`none` is
success), the number of invocations of the operation, and the completed
backoff waits in order. -/
structure RetryTrace where
  result : Option RetryErr
  calls : ℕ
  waits : List ℕ
deriving DecidableEq, Repr

/-- The `for attempt` loop of `DoWithContext`. `fn a = none` means the
operation succeeds on (0-based) attempt `a`, `fn a = some c` that it
fails with error `c`. `jit a` is the jitter drawn after attempt `a`.
Recursion is on the remaining iteration count `rem`; `lastErr` is the
loop variable of the same name. -/
def retryLoop (p : Policy) (fn : ℕ → Option ℕ) (ctx : RetryCtx)
    (jit : ℕ → ℕ) : ℕ → ℕ → ℕ → Option RetryErr → RetryTrace
  | _, 0, _, lastErr => ⟨lastErr, 0, []⟩
  | attempt, rem + 1, backoff, lastErr =>
    if ctx.doneAtTop attempt then
      match lastErr with
      | some e => ⟨some e, 0, []⟩
      | none => ⟨some RetryErr.ctxCanceled, 0, []⟩
    else
      match fn attempt with
      | none => ⟨none, 1, []⟩
      | some c =>
        if rem = 0 then ⟨some (RetryErr.op c), 1, []⟩
        else
          let delay := computeDelay p backoff (jit attempt)
          if ctx.cancelDuringWait attempt then ⟨some RetryErr.ctxCanceled, 1, []⟩
          else
            let t := retryLoop p fn ctx jit (attempt + 1) rem
              (backoff * p.factorNum / p.factorDen) (some (RetryErr.op c))
            ⟨t.result, t.calls + 1, delay :: t.waits⟩

/-- `retry.DoWithContext` (internal/models/order.go lines 1971-2036 of the
concatenated sources): normalise the attempt bound, then run the loop
from attempt 0 with `backoff = InitialBackoff` and no last error. -/
def DoWithContext (p : Policy) (fn : ℕ → Option ℕ) (ctx : RetryCtx)
    (jit : ℕ → ℕ) : RetryTrace :=
  retryLoop p fn ctx jit 0 (normMax p) p.initialBackoff none

/-- The running backoff of the loop, starting from `b`:
multiplied by the factor after every completed wait and never capped. -/
def backoffFrom (p : Policy) (b : ℕ) : ℕ → ℕ
  | 0 => b
  | k + 1 => backoffFrom p b k * p.factorNum / p.factorDen

/-- Modelled from the spec (section 4.1): the claimed wait before the
retry following failure number `attempt`, namely
`delay = min(dmax, d0 * f^attempt)` with, when jitter is enabled, a
uniformly random `j` from `[0, delay/2)` added to the capped value. -/
def specDelay (p : Policy) (attempt j : ℕ) : ℕ :=
  min p.maxBackoff (p.initialBackoff * p.factorNum ^ attempt / p.factorDen ^ attempt)
    + (if p.jitter then j else 0)

/-- `(*Postgres).GetOrder` as seen by the Retry Executor: the closure
reads the (unchanging) database; a missing aggregate is returned as an
error value (code 1, the wrapped `pgx.ErrNoRows`), any present aggregate
as success. Wrapped in `retry.DefaultPolicy()` exactly as in
internal/database/postgres.go lines 283-365. -/
def pgGetOrderTrace (db : DB) (uid : String) (ctx : RetryCtx)
    (jit : ℕ → ℕ) : RetryTrace :=
  DoWithContext defaultPolicy
    (fun _ => if (dbGetOrder db uid).isSome then none else some 1) ctx jit

/-! Ingestion consumer and dead-letter publisher
(internal/kafka/consumer.go, the DLQ producer file). Message payloads are
byte strings. -/

/-- A fetched broker message (topic, key, raw payload bytes). -/
structure KMessage where
  topic : String
  key : String
  value : String
deriving DecidableEq, Repr

/-- `kafka.DLQMessage`: the immutable dead-letter record. -/
structure DLQRecord where
  originalMessage : String
  error : String
  timestamp : Int
  topic : String
  key : String
  attempts : Int
deriving DecidableEq, Repr

/-- `(*DLQProducer).SendToDLQ` record construction: the original payload
bytes are carried verbatim (`OriginalMessage: originalMsg.Value`), never
re-serialised. -/
def mkDLQMessage (now : Int) (m : KMessage) (errText : String)
    (attempts : Int) : DLQRecord :=
  ⟨m.value, errText, now, m.topic, m.key, attempts⟩

/-- Observable side effects of one iteration of `(*Consumer).Consume`
after a message has been fetched. -/
inductive ConsumeAction where
  | dlqPublish (r : DLQRecord)
  | invokeProcess (o : Order)
  | commit
deriving DecidableEq, Repr

/-- One iteration of `(*Consumer).Consume` on a fetched message
(internal/kafka/consumer.go lines 84-167): decode, validate, process;
every failure dead-letters (when a DLQ producer is configured, always
with attempt count 1) and then commits unconditionally; success commits.
`decode` abstracts `json.Unmarshal` into the Order structure,
`processFn` the injected processing callback. -/
def consumeStep (now : Int) (hasDLQ : Bool)
    (decode : String → Except String Order)
    (processFn : Order → Option String) (m : KMessage) :
    List ConsumeAction :=
  match decode m.value with
  | Except.error e =>
    (if hasDLQ then [ConsumeAction.dlqPublish (mkDLQMessage now m e 1)] else [])
      ++ [ConsumeAction.commit]
  | Except.ok o =>
    match o.validate with
    | some e =>
      (if hasDLQ then [ConsumeAction.dlqPublish (mkDLQMessage now m e 1)] else [])
        ++ [ConsumeAction.commit]
    | none =>
      ConsumeAction.invokeProcess o ::
        match processFn o with
        | some e =>
          (if hasDLQ then [ConsumeAction.dlqPublish (mkDLQMessage now m e 1)] else [])
            ++ [ConsumeAction.commit]
        | none => [ConsumeAction.commit]

/-! Helper lemmas: association lists and the SaveOrder transaction. -/

theorem lookupA_upsert_self {α : Type} (k : String) (v : α)
    (l : List (String × α)) : lookupA (upsertA k v l) k = some v := by
  simp [upsertA, lookupA]

theorem filter_ne_filter_eq_nil {α : Type} (l : List (String × α))
    (k : String) :
    ((l.filter (fun p => !(p.1 == k))).filter (fun p => p.1 == k)) = [] := by
  induction l with
  | nil => rfl
  | cons p rest ih =>
    by_cases hp : p.1 == k <;> simp [List.filter, hp, ih]

theorem filter_map_pair {α : Type} (its : List α) (k : String) :
    (((its.map (fun it => (k, it))).filter
      (fun p : String × α => p.1 == k)).map Prod.snd) = its := by
  induction its with
  | nil => rfl
  | cons it rest ih => simp [List.filter, ih]

theorem lookupA_filter_ne {α : Type} (l : List (String × α))
    (q : String × α → Bool) (k : String) :
    lookupA ((l.filter (fun p => !(p.1 == k))).filter q) k = none := by
  induction l with
  | nil => rfl
  | cons p rest ih =>
    by_cases hp : p.1 == k
    · simpa [List.filter, hp] using ih
    · by_cases hq : q p
      · have hne : p.1 ≠ k := by simpa using hp
        simpa [List.filter, hp, hq, lookupA, hne] using ih
      · simpa [List.filter, hp, hq] using ih

theorem itemsFor_savedDB (db : DB) (o : Order) :
    itemsFor (savedDB db o) o.orderUID = o.items := by
  simp [itemsFor, savedDB, List.filter_append,
    filter_ne_filter_eq_nil db.items o.orderUID, filter_map_pair]

theorem insertItemsLoop_ok (fail : SaveStep → Bool) (uid : String) :
    ∀ (its : List Item) (i : ℕ) (db db2 : DB),
      insertItemsLoop fail uid its i db = Except.ok db2 →
      db2 = { db with items := db.items ++ its.map (fun it => (uid, it)) } := by
  intro its
  induction its with
  | nil =>
    intro i db db2 h
    cases db
    simpa [insertItemsLoop] using h.symm
  | cons it rest ih =>
    intro i db db2 h
    by_cases hf : fail (SaveStep.insertItem i)
    · simp [insertItemsLoop, hf] at h
    · rw [insertItemsLoop, if_neg hf] at h
      have h2 := ih (i + 1) (dbInsertItem db uid it) db2 h
      simp [dbInsertItem] at h2
      simp [h2]

theorem saveOrderBody_cases (fail : SaveStep → Bool) (db : DB) (o : Order) :
    (∃ e, (saveOrderBody fail db o).2 = (true, some e)) ∨
      saveOrderBody fail db o = (savedDB db o, false, none) := by
  rw [saveOrderBody]
  by_cases h1 : fail SaveStep.upsertOrder
  · exact Or.inl ⟨"order upsert failed", by simp [h1]⟩
  by_cases h2 : fail SaveStep.upsertDelivery
  · exact Or.inl ⟨"delivery upsert failed", by simp [h1, h2]⟩
  by_cases h3 : fail SaveStep.upsertPayment
  · exact Or.inl ⟨"payment upsert failed", by simp [h1, h2, h3]⟩
  by_cases h4 : fail SaveStep.deleteItems
  · exact Or.inl ⟨"item delete failed", by simp [h1, h2, h3, h4]⟩
  simp only [h1, h2, h3, h4, if_false]
  rcases hloop : insertItemsLoop fail o.orderUID o.items 0
      (dbDeleteItems (dbUpsertPayment (dbUpsertDelivery (dbUpsertOrder db o) o) o)
        o.orderUID) with e | db5
  · exact Or.inl ⟨e, by simp⟩
  · by_cases h5 : fail SaveStep.txCommit
    · exact Or.inl ⟨"commit failed", by simp [h5]⟩
    · refine Or.inr ?_
      have h6 := insertItemsLoop_ok fail o.orderUID o.items 0 _ db5 hloop
      simp only [h5, if_false]
      rw [h6]
      simp [savedDB, dbUpsertOrder, dbUpsertDelivery, dbUpsertPayment,
        dbDeleteItems]

theorem saveOrderAttempt_err (fail : SaveStep → Bool) (db : DB) (o : Order) :
    (saveOrderAttempt fail db o).2.isSome → (saveOrderAttempt fail db o).1 = db := by
  intro h
  rw [saveOrderAttempt] at h ⊢
  by_cases hb : fail SaveStep.txBegin
  · simp [hb]
  rcases saveOrderBody_cases fail db o with ⟨e, he⟩ | hok
  · rcases hbody : saveOrderBody fail db o with ⟨txDb, sr, err⟩
    rw [hbody] at he
    simp at he
    simp [hb, hbody, he.1]
  · rw [hok] at h
    simp [hb] at h

theorem saveOrderAttempt_ok (fail : SaveStep → Bool) (db : DB) (o : Order) :
    (saveOrderAttempt fail db o).2 = none →
    (saveOrderAttempt fail db o).1 = savedDB db o := by
  intro h
  rw [saveOrderAttempt] at h ⊢
  by_cases hb : fail SaveStep.txBegin
  · simp [hb] at h
  rcases saveOrderBody_cases fail db o with ⟨e, he⟩ | hok
  · rcases hbody : saveOrderBody fail db o with ⟨txDb, sr, err⟩
    rw [hbody] at he
    simp at he
    rw [hbody] at h
    simp [hb, he.1, he.2] at h
  · rw [hok] at h ⊢
    simp [hb]

theorem retrySaveLoop_ok (fail : ℕ → SaveStep → Bool) (o : Order) :
    ∀ (rem attempt : ℕ) (db db2 : DB) (lastE : Option String),
      (1 ≤ rem ∨ lastE ≠ none) →
      retrySaveLoop fail o attempt rem db lastE = (db2, none) →
      db2 = savedDB db o := by
  intro rem
  induction rem with
  | zero =>
    intro attempt db db2 lastE hpre h
    rcases hpre with hr | hl
    · omega
    · rw [retrySaveLoop] at h
      exact absurd (congrArg Prod.snd h) (by simpa using hl)
  | succ r ih =>
    intro attempt db db2 lastE _ h
    rw [retrySaveLoop] at h
    rcases ha : saveOrderAttempt (fail attempt) db o with ⟨db1, e⟩
    rw [ha] at h
    cases e with
    | none =>
      have h1 : db2 = db1 := by
        simpa using (congrArg Prod.fst h).symm
      have h2 := saveOrderAttempt_ok (fail attempt) db o
      rw [ha] at h2
      simpa [h1] using h2 rfl
    | some eMsg =>
      have hdb1 : db1 = db := by
        have h2 := saveOrderAttempt_err (fail attempt) db o
        rw [ha] at h2
        simpa using h2 (by simp)
      by_cases hr : r = 0
      · rw [hr] at h
        simp at h
      · have h' : retrySaveLoop fail o (attempt + 1) r db1 (some eMsg) = (db2, none) := by
          simpa [hr] using h
        have := ih (attempt + 1) db1 db2 (some eMsg) (Or.inr (by simp)) h'
        rwa [hdb1] at this

theorem processOrder_ok (now ttl : Int) (fail : ℕ → SaveStep → Bool)
    (s : Sys) (o : Order) :
    (processOrder now ttl fail s o).2 = none →
    (processOrder now ttl fail s o).1.db = savedDB s.db (dateDefault now o) := by
  intro h
  rw [processOrder] at h ⊢
  rcases hr : retrySaveLoop fail (dateDefault now o) 0 5 s.db none with ⟨db1, e⟩
  rw [hr] at h
  cases e with
  | none =>
    simp only [hr]
    simpa using retrySaveLoop_ok fail (dateDefault now o) 5 0 s.db db1 none
      (Or.inl (by omega)) hr
  | some eMsg => simp at h

theorem dateDefault_fields (now : Int) (o : Order) :
    (dateDefault now o).orderUID = o.orderUID ∧
      (dateDefault now o).items = o.items ∧
      (dateDefault now o).delivery = o.delivery ∧
      (dateDefault now o).payment = o.payment := by
  rw [dateDefault]
  split <;> exact ⟨rfl, rfl, rfl, rfl⟩

/-! Helper lemmas: the retry loop. -/

theorem one_le_normMax (p : Policy) : 1 ≤ normMax p := by
  rw [normMax]
  split
  · omega
  · rename_i h
    omega

theorem computeDelay_eq_min (p : Policy) (b j : ℕ) :
    computeDelay p b j = min p.maxBackoff (b + (if p.jitter then j else 0)) := by
  rw [computeDelay]
  split_ifs <;> simp_all <;> omega

theorem backoffFrom_shift (p : Policy) (b : ℕ) :
    ∀ k, backoffFrom p b (k + 1) = backoffFrom p (b * p.factorNum / p.factorDen) k := by
  intro k
  induction k with
  | zero => rfl
  | succ k ih =>
    rw [backoffFrom, ih]
    rfl

theorem retryLoop_success (p : Policy) (fn : ℕ → Option ℕ) (ctx : RetryCtx)
    (jit : ℕ → ℕ) (hd : ∀ i, ctx.doneAtTop i = false)
    (hw : ∀ i, ctx.cancelDuringWait i = false) :
    ∀ (k attempt rem b : ℕ) (le : Option RetryErr),
      (∀ i, i < k → (fn (attempt + i)).isSome) → fn (attempt + k) = none →
      k < rem →
      (retryLoop p fn ctx jit attempt rem b le).result = none ∧
        (retryLoop p fn ctx jit attempt rem b le).calls = k + 1 := by
  intro k
  induction k with
  | zero =>
    intro attempt rem b le _ hk hlt
    obtain ⟨r, rfl⟩ : ∃ r, rem = r + 1 := ⟨rem - 1, by omega⟩
    have hfa : fn attempt = none := by simpa using hk
    simp [retryLoop, hd attempt, hfa]
  | succ k ih =>
    intro attempt rem b le hall hk hlt
    obtain ⟨r, rfl⟩ : ∃ r, rem = r + 1 := ⟨rem - 1, by omega⟩
    have h0 : (fn attempt).isSome := by simpa using hall 0 (by omega)
    obtain ⟨c, hc⟩ := Option.isSome_iff_exists.mp h0
    have hr : ¬ r = 0 := by omega
    have hrec := ih (attempt + 1) r (b * p.factorNum / p.factorDen)
      (some (RetryErr.op c))
      (fun i hi => by
        have := hall (i + 1) (by omega)
        rwa [show attempt + (i + 1) = attempt + 1 + i by omega] at this)
      (by rwa [show attempt + 1 + k = attempt + (k + 1) by omega])
      (by omega)
    simp [retryLoop, hd attempt, hw attempt, hc, hr]
    exact ⟨hrec.1, hrec.2⟩

theorem retryLoop_exhaust (p : Policy) (fn : ℕ → Option ℕ) (ctx : RetryCtx)
    (jit : ℕ → ℕ) (hd : ∀ i, ctx.doneAtTop i = false)
    (hw : ∀ i, ctx.cancelDuringWait i = false) :
    ∀ (rem attempt b : ℕ) (le : Option RetryErr), 1 ≤ rem →
      (∀ i, i < rem → (fn (attempt + i)).isSome) →
      (retryLoop p fn ctx jit attempt rem b le).result =
        (fn (attempt + (rem - 1))).map RetryErr.op ∧
        (retryLoop p fn ctx jit attempt rem b le).calls = rem := by
  intro rem
  induction rem with
  | zero => omega
  | succ r ih =>
    intro attempt b le _ hall
    have h0 : (fn attempt).isSome := by simpa using hall 0 (by omega)
    obtain ⟨c, hc⟩ := Option.isSome_iff_exists.mp h0
    by_cases hr : r = 0
    · subst hr
      simp [retryLoop, hd attempt, hc]
    · have hrec := ih (attempt + 1) (b * p.factorNum / p.factorDen)
        (some (RetryErr.op c)) (by omega)
        (fun i hi => by
          have := hall (i + 1) (by omega)
          rwa [show attempt + (i + 1) = attempt + 1 + i by omega] at this)
      have hidx : attempt + 1 + (r - 1) = attempt + (r + 1 - 1) := by omega
      rw [hidx] at hrec
      simp [retryLoop, hd attempt, hw attempt, hc, hr]
      exact ⟨hrec.1, hrec.2⟩

theorem retryLoop_cancelWait (p : Policy) (fn : ℕ → Option ℕ) (ctx : RetryCtx)
    (jit : ℕ → ℕ) :
    ∀ (a attempt rem b : ℕ) (le : Option RetryErr),
      (∀ i, i ≤ a → ctx.doneAtTop (attempt + i) = false) →
      (∀ i, i < a → ctx.cancelDuringWait (attempt + i) = false) →
      ctx.cancelDuringWait (attempt + a) = true →
      (∀ i, i ≤ a → (fn (attempt + i)).isSome) →
      a + 1 < rem →
      (retryLoop p fn ctx jit attempt rem b le).result =
        some RetryErr.ctxCanceled := by
  intro a
  induction a with
  | zero =>
    intro attempt rem b le hd hw hcw hall hlt
    obtain ⟨r, rfl⟩ : ∃ r, rem = r + 1 := ⟨rem - 1, by omega⟩
    have h0 : (fn attempt).isSome := by simpa using hall 0 (by omega)
    obtain ⟨c, hc⟩ := Option.isSome_iff_exists.mp h0
    have hd0 : ctx.doneAtTop attempt = false := by simpa using hd 0 (by omega)
    have hcw0 : ctx.cancelDuringWait attempt = true := by simpa using hcw
    simp [retryLoop, hd0, hc, hcw0, show ¬ r = 0 by omega]
  | succ a ih =>
    intro attempt rem b le hd hw hcw hall hlt
    obtain ⟨r, rfl⟩ : ∃ r, rem = r + 1 := ⟨rem - 1, by omega⟩
    have h0 : (fn attempt).isSome := by simpa using hall 0 (by omega)
    obtain ⟨c, hc⟩ := Option.isSome_iff_exists.mp h0
    have hd0 : ctx.doneAtTop attempt = false := by simpa using hd 0 (by omega)
    have hw0 : ctx.cancelDuringWait attempt = false := by
      simpa using hw 0 (by omega)
    have hrec := ih (attempt + 1) r (b * p.factorNum / p.factorDen)
      (some (RetryErr.op c))
      (fun i hi => by
        have := hd (i + 1) (by omega)
        rwa [show attempt + (i + 1) = attempt + 1 + i by omega] at this)
      (fun i hi => by
        have := hw (i + 1) (by omega)
        rwa [show attempt + (i + 1) = attempt + 1 + i by omega] at this)
      (by rwa [show attempt + 1 + a = attempt + (a + 1) by omega])
      (fun i hi => by
        have := hall (i + 1) (by omega)
        rwa [show attempt + (i + 1) = attempt + 1 + i by omega] at this)
      (by omega)
    simp [retryLoop, hd0, hw0, hc, show ¬ r = 0 by omega]
    exact hrec

theorem retryLoop_doneAfterFail (p : Policy) (fn : ℕ → Option ℕ)
    (ctx : RetryCtx) (jit : ℕ → ℕ) :
    ∀ (a attempt rem b : ℕ) (le : Option RetryErr),
      (∀ i, i ≤ a → ctx.doneAtTop (attempt + i) = false) →
      (∀ i, i ≤ a → ctx.cancelDuringWait (attempt + i) = false) →
      ctx.doneAtTop (attempt + a + 1) = true →
      (∀ i, i ≤ a → (fn (attempt + i)).isSome) →
      a + 1 < rem →
      (retryLoop p fn ctx jit attempt rem b le).result =
        (fn (attempt + a)).map RetryErr.op := by
  intro a
  induction a with
  | zero =>
    intro attempt rem b le hd hw hdone hall hlt
    obtain ⟨r, rfl⟩ : ∃ r, rem = r + 1 := ⟨rem - 1, by omega⟩
    obtain ⟨r2, rfl⟩ : ∃ r2, r = r2 + 1 := ⟨r - 1, by omega⟩
    have h0 : (fn attempt).isSome := by simpa using hall 0 (by omega)
    obtain ⟨c, hc⟩ := Option.isSome_iff_exists.mp h0
    have hd0 : ctx.doneAtTop attempt = false := by simpa using hd 0 (by omega)
    have hw0 : ctx.cancelDuringWait attempt = false := by
      simpa using hw 0 (by omega)
    have hdone1 : ctx.doneAtTop (attempt + 1) = true := by simpa using hdone
    simp [retryLoop, hd0, hw0, hc, hdone1]
  | succ a ih =>
    intro attempt rem b le hd hw hdone hall hlt
    obtain ⟨r, rfl⟩ : ∃ r, rem = r + 1 := ⟨rem - 1, by omega⟩
    have h0 : (fn attempt).isSome := by simpa using hall 0 (by omega)
    obtain ⟨c, hc⟩ := Option.isSome_iff_exists.mp h0
    have hd0 : ctx.doneAtTop attempt = false := by simpa using hd 0 (by omega)
    have hw0 : ctx.cancelDuringWait attempt = false := by
      simpa using hw 0 (by omega)
    have hrec := ih (attempt + 1) r (b * p.factorNum / p.factorDen)
      (some (RetryErr.op c))
      (fun i hi => by
        have := hd (i + 1) (by omega)
        rwa [show attempt + (i + 1) = attempt + 1 + i by omega] at this)
      (fun i hi => by
        have := hw (i + 1) (by omega)
        rwa [show attempt + (i + 1) = attempt + 1 + i by omega] at this)
      (by rwa [show attempt + 1 + a + 1 = attempt + (a + 1) + 1 by omega])
      (fun i hi => by
        have := hall (i + 1) (by omega)
        rwa [show attempt + (i + 1) = attempt + 1 + i by omega] at this)
      (by omega)
    rw [show attempt + 1 + a = attempt + (a + 1) by omega] at hrec
    simp [retryLoop, hd0, hw0, hc, show ¬ r = 0 by omega]
    exact hrec

theorem retryLoop_waits (p : Policy) (fn : ℕ → Option ℕ) (ctx : RetryCtx)
    (jit : ℕ → ℕ) (hd : ∀ i, ctx.doneAtTop i = false)
    (hw : ∀ i, ctx.cancelDuringWait i = false)
    (hf : ∀ i, (fn i).isSome) :
    ∀ (rem attempt b : ℕ) (le : Option RetryErr),
      (retryLoop p fn ctx jit attempt rem b le).waits =
        (List.range (rem - 1)).map
          (fun k => computeDelay p (backoffFrom p b k) (jit (attempt + k))) := by
  intro rem
  induction rem with
  | zero => intro attempt b le; rfl
  | succ r ih =>
    intro attempt b le
    obtain ⟨c, hc⟩ := Option.isSome_iff_exists.mp (hf attempt)
    by_cases hr : r = 0
    · subst hr
      simp [retryLoop, hd attempt, hc]
    · have hrec := ih (attempt + 1) (b * p.factorNum / p.factorDen)
        (some (RetryErr.op c))
      simp only [retryLoop, hd attempt, hw attempt, hc, Bool.false_eq_true,
        if_false, if_neg hr, Nat.add_one_sub_one]
      rw [hrec]
      obtain ⟨r2, rfl⟩ : ∃ r2, r = r2 + 1 := ⟨r - 1, by omega⟩
      rw [List.range_succ_eq_map]
      simp only [List.map_cons, List.map_map, Nat.add_one_sub_one]
      congr 1
      · apply List.map_congr_left
        intro k _
        simp only [Function.comp]
        rw [backoffFrom_shift, show attempt + (k + 1) = attempt + 1 + k by omega]

/-! Further helper lemmas for the read path. -/

theorem dbGetOrder_uid (db : DB) (uid : String) (o : Order)
    (h : dbGetOrder db uid = some o) : o.orderUID = uid := by
  rw [dbGetOrder] at h
  rcases h1 : lookupA db.orders uid with _ | hrow <;> rw [h1] at h
  · simp at h
  rcases h2 : lookupA db.delivery uid with _ | d <;> rw [h2] at h
  · simp at h
  rcases h3 : lookupA db.payment uid with _ | pay <;> rw [h3] at h
  · simp at h
  obtain rfl := Option.some_inj.mp h
  rfl

theorem cacheGet_set_self (now ttl : Int) (c : CacheMap) (o : Order)
    (httl : 0 ≤ ttl) :
    cacheGet now (cacheSet now ttl c o) o.orderUID = some o := by
  simp only [cacheGet, cacheSet, lookupA_upsert_self]
  rw [if_neg (by omega)]

/-! Concrete fixtures used by witnesses and counterexamples. -/

def dGood : Delivery := ⟨"n", "p", "z", "c", "a", "r", "e@x"⟩

def pGood : Payment := ⟨"t", "", "USD", "pr", 0, 1, "b", 0, 0, 0⟩

def itGood : Item := ⟨1, "T", 0, "r", "n", 0, "M", 0, 1, "B", 0⟩

def itBlue : Item := ⟨2, "T2", 7, "r2", "n2", 0, "L", 7, 2, "B2", 1⟩

/-- An order accepted by the business validator. -/
def oGood : Order :=
  ⟨"a1", "T", "E", dGood, pGood, [itGood], "en", "", "c", "d", "s", 1, 0, "o"⟩

/-- The same identifier as `oGood` but a different item list. -/
def oGood2 : Order :=
  ⟨"a1", "T", "E", dGood, pGood, [itBlue, itGood], "en", "", "c", "d", "s", 1, 0, "o"⟩

/-- An order the business validator rejects (blank identifier). -/
def oInvalid : Order :=
  ⟨"", "T", "E", dGood, pGood, [itGood], "en", "", "c", "d", "s", 1, 0, "o"⟩

/-- Failure oracle under which every statement succeeds. -/
def noFail : ℕ → SaveStep → Bool := fun _ _ => false

/-- Failure oracle under which exactly the first item insert fails. -/
def failItem0 : SaveStep → Bool := fun st => decide (st = SaveStep.insertItem 0)

/-! The claims. -/

/-- C1: every failing step of the `SaveOrder` transaction (order,
delivery or payment upsert, item delete, any item insert, or the commit)
triggers the deferred rollback, so the visible database is exactly the
pre-transaction one; and a successful run persists the whole aggregate
(header, delivery, payment and full item list) at once. -/
theorem C1_saveOrder_atomic (fail : SaveStep → Bool) (db : DB) (o : Order) :
    ((saveOrderAttempt fail db o).2.isSome →
      (saveOrderAttempt fail db o).1 = db) ∧
    ((saveOrderAttempt fail db o).2 = none →
      (saveOrderAttempt fail db o).1 = savedDB db o) :=
  ⟨saveOrderAttempt_err fail db o, saveOrderAttempt_ok fail db o⟩

/-- C1 witness: with the first item insert failing (the P5 scenario), the
attempt errors and the store is left exactly empty. -/
theorem C1_saveOrder_atomic_witness :
    (saveOrderAttempt failItem0 emptyDB oGood).2.isSome = true ∧
    (saveOrderAttempt failItem0 emptyDB oGood).1 = emptyDB :=
  ⟨by decide, (C1_saveOrder_atomic failItem0 emptyDB oGood).1 (by decide)⟩

/-- C2: processing two orders with the same identifier leaves, once the
second call succeeds, exactly the second order's item list for that
identifier (items are wholesale-replaced by delete-then-reinsert, never
merged), and the delivery and payment rows of the latest call. -/
theorem C2_latest_items_win (now1 now2 ttl1 ttl2 : Int)
    (fail1 fail2 : ℕ → SaveStep → Bool) (s : Sys) (o1 o2 : Order)
    (_huid : o1.orderUID = o2.orderUID)
    (h2 : (processOrder now2 ttl2 fail2
      (processOrder now1 ttl1 fail1 s o1).1 o2).2 = none) :
    itemsFor (processOrder now2 ttl2 fail2
        (processOrder now1 ttl1 fail1 s o1).1 o2).1.db o2.orderUID = o2.items ∧
    lookupA (processOrder now2 ttl2 fail2
        (processOrder now1 ttl1 fail1 s o1).1 o2).1.db.delivery o2.orderUID =
      some o2.delivery ∧
    lookupA (processOrder now2 ttl2 fail2
        (processOrder now1 ttl1 fail1 s o1).1 o2).1.db.payment o2.orderUID =
      some o2.payment := by
  have hdb := processOrder_ok now2 ttl2 fail2
    (processOrder now1 ttl1 fail1 s o1).1 o2 h2
  obtain ⟨hu, hi, hdel, hpay⟩ := dateDefault_fields now2 o2
  rw [hdb]
  refine ⟨?_, ?_, ?_⟩
  · rw [← hu, ← hi]
    exact itemsFor_savedDB _ _
  · show lookupA (upsertA (dateDefault now2 o2).orderUID
      (dateDefault now2 o2).delivery _) o2.orderUID = some o2.delivery
    rw [hu, hdel]
    exact lookupA_upsert_self _ _ _
  · show lookupA (upsertA (dateDefault now2 o2).orderUID
      (dateDefault now2 o2).payment _) o2.orderUID = some o2.payment
    rw [hu, hpay]
    exact lookupA_upsert_self _ _ _

/-- C2 witness: saving `oGood` and then `oGood2` (same identifier,
different items) leaves exactly the items of `oGood2`. -/
theorem C2_latest_items_win_witness :
    itemsFor (processOrder 2 10 noFail
      (processOrder 1 10 noFail sysEmpty oGood).1 oGood2).1.db
      oGood2.orderUID = oGood2.items :=
  (C2_latest_items_win 1 2 10 10 noFail noFail sysEmpty oGood oGood2 rfl
    (by decide)).1

/-- C3: `GetOrder` serves a cache hit without touching the store and
leaves the state unchanged; on a miss it reads the store, backfills the
cache (so an immediate re-read hits the cache), and when the store has
no row the error is surfaced, nothing is cached, and the cache size is
unchanged. -/
theorem C3_read_through (now ttl : Int) (s : Sys) (uid : String)
    (httl : 0 ≤ ttl) :
    (∀ o, cacheGet now s.cache uid = some o →
      serviceGetOrder now ttl s uid = ⟨s, some o, false⟩) ∧
    (∀ o, cacheGet now s.cache uid = none → dbGetOrder s.db uid = some o →
      serviceGetOrder now ttl s uid =
        ⟨⟨s.db, cacheSet now ttl s.cache o⟩, some o, true⟩ ∧
      cacheGet now (serviceGetOrder now ttl s uid).sys.cache uid = some o) ∧
    (cacheGet now s.cache uid = none → dbGetOrder s.db uid = none →
      serviceGetOrder now ttl s uid = ⟨s, none, true⟩ ∧
      cacheSize now (serviceGetOrder now ttl s uid).sys.cache =
        cacheSize now s.cache) := by
  refine ⟨?_, ?_, ?_⟩
  · intro o h
    simp [serviceGetOrder, h]
  · intro o hc hdb
    have hser : serviceGetOrder now ttl s uid =
        ⟨⟨s.db, cacheSet now ttl s.cache o⟩, some o, true⟩ := by
      simp [serviceGetOrder, hc, hdb]
    refine ⟨hser, ?_⟩
    rw [hser, ← dbGetOrder_uid s.db uid o hdb]
    exact cacheGet_set_self now ttl s.cache o httl
  · intro hc hdb
    have hser : serviceGetOrder now ttl s uid = ⟨s, none, true⟩ := by
      simp [serviceGetOrder, hc, hdb]
    exact ⟨hser, by rw [hser]⟩

/-- C3 witness (Scenario D): a lookup of a missing identifier against an
empty cache and empty store surfaces not-found and leaves the cache size
at 0. -/
theorem C3_read_through_witness :
    serviceGetOrder 0 10 sysEmpty "does-not-exist" = ⟨sysEmpty, none, true⟩ ∧
    cacheSize 0 (serviceGetOrder 0 10 sysEmpty "does-not-exist").sys.cache = 0 :=
  ⟨((C3_read_through 0 10 sysEmpty "does-not-exist" (by decide)).2.2 rfl rfl).1,
    by decide⟩

/-- C4: after `Set` and the passage of more than the TTL, `Get` reports
not-found although the backing entry is still present (lazy expiry);
`Get` of an absent key reports not-found; and `Cleanup` removes the
expired entry — indeed every expired entry — from the backing map. -/
theorem C4_cache_lazy_expiry (ttl now0 now1 : Int) (c : CacheMap) (o : Order)
    (h : now1 - now0 > ttl) :
    cacheGet now1 (cacheSet now0 ttl c o) o.orderUID = none ∧
    lookupA (cacheSet now0 ttl c o) o.orderUID = some (o, now0 + ttl) ∧
    (∀ (c2 : CacheMap) (uid : String), lookupA c2 uid = none →
      cacheGet now1 c2 uid = none) ∧
    lookupA (cacheCleanup now1 (cacheSet now0 ttl c o)) o.orderUID = none ∧
    (∀ (now : Int) (c2 : CacheMap), ∀ e ∈ cacheCleanup now c2,
      ¬ (now > e.2.2)) := by
  refine ⟨?_, ?_, ?_, ?_, ?_⟩
  · simp only [cacheGet, cacheSet, lookupA_upsert_self]
    rw [if_pos (by omega)]
  · exact lookupA_upsert_self _ _ _
  · intro c2 uid h2
    simp [cacheGet, h2]
  · have hexp : now1 > now0 + ttl := by omega
    rw [cacheSet, upsertA, cacheCleanup, List.filter_cons_of_neg]
    · exact lookupA_filter_ne c _ o.orderUID
    · simp [hexp]
  · intro now c2 e he
    rw [cacheCleanup, List.mem_filter] at he
    simpa using he.2

/-- C4 witness: TTL 10, set at instant 0, read at instant 11. -/
theorem C4_cache_lazy_expiry_witness :
    cacheGet 11 (cacheSet 0 10 [] oGood) oGood.orderUID = none ∧
    lookupA (cacheCleanup 11 (cacheSet 0 10 [] oGood)) oGood.orderUID = none :=
  ⟨(C4_cache_lazy_expiry 10 0 11 [] oGood (by decide)).1,
    (C4_cache_lazy_expiry 10 0 11 [] oGood (by decide)).2.2.2.1⟩

/-- C5: the code wraps the no-rows condition of `GetOrder` in an ordinary
error, so the default policy re-runs the read: on an empty store the
operation is invoked 3 times (all attempts consumed) before the
not-found error is surfaced — contradicting the claim (and the source's
own comment) that not-found is surfaced without consuming retries. -/
theorem C5_notfound_consumes_retries :
    (pgGetOrderTrace emptyDB "does-not-exist" neverCancelCtx
      (fun _ => 0)).calls = 3 ∧
    (pgGetOrderTrace emptyDB "does-not-exist" neverCancelCtx
      (fun _ => 0)).result = some (RetryErr.op 1) := by
  constructor <;> rfl

/-- Broker message of Scenario B: the literal truncated JSON payload. -/
def msgB : KMessage := ⟨"orders", "k1", "\x7b\"not\":\"valid\""⟩

/-- A decoder failing exactly as `json.Unmarshal` does on the Scenario B
payload. -/
def decodeB : String → Except String Order :=
  fun _ => Except.error "unexpected end of JSON input"

/-- C6: when the body of a consumed message fails decoding and a DLQ
producer is configured, the iteration publishes exactly one dead-letter
record — carrying the original payload bytes verbatim and attempt count
1 — and then commits the message, in that order, with nothing else. -/
theorem C6_dlq_verbatim (now : Int) (decode : String → Except String Order)
    (processFn : Order → Option String) (m : KMessage) (e : String)
    (hdec : decode m.value = Except.error e) :
    consumeStep now true decode processFn m =
      [ConsumeAction.dlqPublish (mkDLQMessage now m e 1),
        ConsumeAction.commit] ∧
    (mkDLQMessage now m e 1).originalMessage = m.value ∧
    (mkDLQMessage now m e 1).attempts = 1 := by
  refine ⟨?_, rfl, rfl⟩
  simp [consumeStep, hdec]

/-- C6 witness (Scenario B): the truncated payload produces one
dead-letter record preserving the raw bytes with attempts 1, then a
commit. -/
theorem C6_dlq_verbatim_witness :
    consumeStep 0 true decodeB (fun _ => none) msgB =
      [ConsumeAction.dlqPublish
        ⟨"\x7b\"not\":\"valid\"", "unexpected end of JSON input", 0,
          "orders", "k1", 1⟩,
        ConsumeAction.commit] :=
  (C6_dlq_verbatim 0 decodeB (fun _ => none) msgB
    "unexpected end of JSON input" rfl).1

/-- C7 counterexample: `ProcessOrder` performs no validation, so an order
the validator rejects (blank identifier) is nevertheless persisted in
full when `ProcessOrder` is invoked on it — refuting the claim that no
execution of `ProcessOrder` writes an invalid order to the store. -/
theorem C7_counterexample :
    oInvalid.validate ≠ none ∧
    (processOrder 5 10 noFail sysEmpty oInvalid).2 = none ∧
    (dbGetOrder (processOrder 5 10 noFail sysEmpty oInvalid).1.db
      oInvalid.orderUID).isSome = true :=
  ⟨by decide, by decide, by decide⟩

/-- C7 (amended): the validator is invoked only by the consumer, before a
message is handed to the orchestrator; consequently every order the
consumer passes to the processing callback satisfies `Validate`, while a
direct `ProcessOrder` call persists even invalid orders. -/
theorem C7_consumer_validates (now : Int) (hasDLQ : Bool)
    (decode : String → Except String Order)
    (processFn : Order → Option String) (m : KMessage) (o : Order)
    (h : ConsumeAction.invokeProcess o ∈
      consumeStep now hasDLQ decode processFn m) :
    o.validate = none := by
  rw [consumeStep] at h
  rcases hdec : decode m.value with e | o2 <;> rw [hdec] at h <;>
    dsimp only at h
  · rcases hasDLQ <;> simp at h
  · rcases hval : o2.validate with _ | e <;> rw [hval] at h <;>
      dsimp only at h
    · rcases hproc : processFn o2 <;> rw [hproc] at h <;> dsimp only at h <;>
        rcases hasDLQ <;> simp at h <;> rw [h] <;> exact hval
    · rcases hasDLQ <;> simp at h

/-- C7 witness: a valid decoded order reaches the processing callback,
and the theorem certifies it passed validation. -/
theorem C7_consumer_validates_witness :
    ConsumeAction.invokeProcess oGood ∈
      consumeStep 0 true (fun _ => Except.ok oGood) (fun _ => none) msgB ∧
    oGood.validate = none :=
  ⟨by decide, C7_consumer_validates 0 true (fun _ => Except.ok oGood)
    (fun _ => none) msgB oGood (by decide)⟩

/-- Fixture for the C8 counterexample: 2 attempts, no jitter. -/
def p8 : Policy := ⟨3, 4, 100, 2, 1, false⟩

/-- Cancellation observed exactly at the top of iteration 1 (after the
backoff timer has already fired), never during a wait. -/
def ctx8 : RetryCtx := ⟨fun i => decide (i = 1), fun _ => false⟩

/-- C8 counterexample: the cancellation signal fires before attempt 1
starts (observed at the loop top), yet `DoWithContext` returns the
previous attempt error, not the cancellation error — refuting the
claim's clause that cancellation before an attempt starts yields the
cancellation error. -/
theorem C8_counterexample :
    ctx8.doneAtTop 1 = true ∧
    (DoWithContext p8 (fun _ => some 7) ctx8 (fun _ => 0)).result =
      some (RetryErr.op 7) ∧
    (DoWithContext p8 (fun _ => some 7) ctx8 (fun _ => 0)).result ≠
      some RetryErr.ctxCanceled :=
  ⟨rfl, by decide, by decide⟩

/-- C8 (amended): with attempt bound N ≥ 1, the executor returns success
immediately after the first succeeding invocation (no further calls); if
all N attempts fail without cancellation, the operation runs exactly N
times and the last error is returned; cancellation observed during a
backoff wait yields the cancellation error, as does cancellation observed
at the loop top before the first attempt — but cancellation observed at
the loop top after some attempt has already failed yields the last
observed error instead. -/
theorem C8_retry_contract_amended :
    (∀ (p : Policy) (fn : ℕ → Option ℕ) (ctx : RetryCtx) (jit : ℕ → ℕ)
      (k : ℕ), (∀ i, ctx.doneAtTop i = false) →
      (∀ i, ctx.cancelDuringWait i = false) →
      (∀ i, i < k → (fn i).isSome) → fn k = none → k < normMax p →
      (DoWithContext p fn ctx jit).result = none ∧
        (DoWithContext p fn ctx jit).calls = k + 1) ∧
    (∀ (p : Policy) (fn : ℕ → Option ℕ) (ctx : RetryCtx) (jit : ℕ → ℕ),
      (∀ i, ctx.doneAtTop i = false) →
      (∀ i, ctx.cancelDuringWait i = false) →
      (∀ i, i < normMax p → (fn i).isSome) →
      (DoWithContext p fn ctx jit).result =
        (fn (normMax p - 1)).map RetryErr.op ∧
        (DoWithContext p fn ctx jit).calls = normMax p) ∧
    (∀ (p : Policy) (fn : ℕ → Option ℕ) (ctx : RetryCtx) (jit : ℕ → ℕ)
      (a : ℕ), (∀ i, i ≤ a → ctx.doneAtTop i = false) →
      (∀ i, i < a → ctx.cancelDuringWait i = false) →
      ctx.cancelDuringWait a = true →
      (∀ i, i ≤ a → (fn i).isSome) → a + 1 < normMax p →
      (DoWithContext p fn ctx jit).result = some RetryErr.ctxCanceled) ∧
    (∀ (p : Policy) (fn : ℕ → Option ℕ) (ctx : RetryCtx) (jit : ℕ → ℕ),
      ctx.doneAtTop 0 = true →
      (DoWithContext p fn ctx jit).result = some RetryErr.ctxCanceled ∧
        (DoWithContext p fn ctx jit).calls = 0) ∧
    (∀ (p : Policy) (fn : ℕ → Option ℕ) (ctx : RetryCtx) (jit : ℕ → ℕ)
      (a : ℕ), (∀ i, i ≤ a → ctx.doneAtTop i = false) →
      (∀ i, i ≤ a → ctx.cancelDuringWait i = false) →
      ctx.doneAtTop (a + 1) = true →
      (∀ i, i ≤ a → (fn i).isSome) → a + 1 < normMax p →
      (DoWithContext p fn ctx jit).result = (fn a).map RetryErr.op) := by
  refine ⟨?_, ?_, ?_, ?_, ?_⟩
  · intro p fn ctx jit k hd hw hall hk hlt
    exact retryLoop_success p fn ctx jit hd hw k 0 (normMax p)
      p.initialBackoff none (fun i hi => by simpa using hall i hi)
      (by simpa using hk) hlt
  · intro p fn ctx jit hd hw hall
    have := retryLoop_exhaust p fn ctx jit hd hw (normMax p) 0
      p.initialBackoff none (one_le_normMax p)
      (fun i hi => by simpa using hall i hi)
    simpa using this
  · intro p fn ctx jit a hd hw hcw hall hlt
    exact retryLoop_cancelWait p fn ctx jit a 0 (normMax p)
      p.initialBackoff none (fun i hi => by simpa using hd i hi)
      (fun i hi => by simpa using hw i hi) (by simpa using hcw)
      (fun i hi => by simpa using hall i hi) hlt
  · intro p fn ctx jit h0
    obtain ⟨r, hrm⟩ : ∃ r, normMax p = r + 1 :=
      ⟨normMax p - 1, by have := one_le_normMax p; omega⟩
    rw [DoWithContext, hrm]
    simp [retryLoop, h0]
  · intro p fn ctx jit a hd hw hdone hall hlt
    have := retryLoop_doneAfterFail p fn ctx jit a 0 (normMax p)
      p.initialBackoff none (fun i hi => by simpa using hd i hi)
      (fun i hi => by simpa using hw i hi) (by simpa using hdone)
      (fun i hi => by simpa using hall i hi) hlt
    simpa using this

/-- Operation failing on attempt 0 and succeeding on attempt 1. -/
def fnSucc1 : ℕ → Option ℕ := fun i => if i < 1 then some 9 else none

/-- C8 witness: under the default policy, an operation failing once and
then succeeding yields success with exactly two invocations. -/
theorem C8_retry_contract_amended_witness :
    (DoWithContext defaultPolicy fnSucc1 neverCancelCtx (fun _ => 0)).result
      = none ∧
    (DoWithContext defaultPolicy fnSucc1 neverCancelCtx (fun _ => 0)).calls
      = 2 :=
  C8_retry_contract_amended.1 defaultPolicy fnSucc1 neverCancelCtx
    (fun _ => 0) 1 (fun _ => rfl) (fun _ => rfl)
    (fun i hi => by have h0 : i = 0 := by omega
                    subst h0; decide)
    (by decide) (by decide)

/-- Fixture for the C9 counterexample: initial backoff 100, cap 60,
jitter enabled. -/
def p9 : Policy := ⟨2, 100, 60, 2, 1, true⟩

/-- C9 counterexample: with jitter draw 10 (admissible both for the
code's range [0, backoff/2) and the spec's range [0, delay/2)), the loop
suspends for min(60, 100 + 10) = 60, while the claim's formula
min(60, 100) + 10 predicts 70: the code adds jitter before applying the
cap, the claim caps before adding jitter. -/
theorem C9_counterexample :
    (DoWithContext p9 (fun _ => some 1) neverCancelCtx
      (fun _ => 10)).waits = [60] ∧
    specDelay p9 0 10 = 70 ∧
    10 < p9.initialBackoff / 2 ∧
    10 < min p9.maxBackoff p9.initialBackoff / 2 ∧
    (60 : ℕ) ≠ 70 := by
  refine ⟨by decide, by decide, by decide, by decide, by decide⟩

/-- C9 (amended): with no cancellation and every attempt failing, the
wait after failure number k equals min(dmax, b_k + j_k) where b_0 = d0,
b_(k+1) = floor(b_k * f) is the uncapped running backoff and j_k the
jitter draw (0 when jitter is off): jitter is added to the uncapped
backoff and the cap is applied afterwards. -/
theorem C9_delay_formula_amended (p : Policy) (fn : ℕ → Option ℕ)
    (ctx : RetryCtx) (jit : ℕ → ℕ) (hd : ∀ i, ctx.doneAtTop i = false)
    (hw : ∀ i, ctx.cancelDuringWait i = false)
    (hf : ∀ i, (fn i).isSome) :
    (DoWithContext p fn ctx jit).waits =
      (List.range (normMax p - 1)).map (fun k =>
        min p.maxBackoff (backoffFrom p p.initialBackoff k +
          (if p.jitter then jit k else 0))) := by
  rw [DoWithContext,
    retryLoop_waits p fn ctx jit hd hw hf (normMax p) 0 p.initialBackoff none]
  apply List.map_congr_left
  intro k _
  rw [computeDelay_eq_min, Nat.zero_add]

/-- C9 witness: the default policy's two waits on a persistently failing
operation with zero jitter draws are 100ms and 200ms (in nanoseconds). -/
theorem C9_delay_formula_amended_witness :
    (DoWithContext defaultPolicy (fun _ => some 3) neverCancelCtx
      (fun _ => 0)).waits = [100000000, 200000000] := by
  rw [C9_delay_formula_amended defaultPolicy (fun _ => some 3) neverCancelCtx
    (fun _ => 0) (fun _ => rfl) (fun _ => rfl) (fun _ => rfl)]
  decide

/-- C10: a policy with non-positive MaxAttempts is normalised to exactly
one attempt: with an uncancelled context the operation is invoked exactly
once and that invocation's outcome is returned. -/
theorem C10_nonpositive_attempts_once (p : Policy) (fn : ℕ → Option ℕ)
    (ctx : RetryCtx) (jit : ℕ → ℕ) (hma : p.maxAttempts ≤ 0)
    (h0 : ctx.doneAtTop 0 = false) :
    normMax p = 1 ∧
    (DoWithContext p fn ctx jit).calls = 1 ∧
    (DoWithContext p fn ctx jit).result = (fn 0).map RetryErr.op := by
  have hnm : normMax p = 1 := by rw [normMax, if_pos hma]
  refine ⟨hnm, ?_, ?_⟩ <;>
    · rw [DoWithContext, hnm]
      rcases hfn : fn 0 with _ | c <;> simp [retryLoop, h0, hfn]

/-- Policy with a negative attempt bound, for the C10 witness. -/
def p10 : Policy := ⟨-3, 10, 100, 2, 1, false⟩

/-- C10 witness: MaxAttempts = -3 still runs the operation exactly once
and returns its error. -/
theorem C10_nonpositive_attempts_once_witness :
    (DoWithContext p10 (fun _ => some 5) neverCancelCtx (fun _ => 0)).calls
      = 1 ∧
    (DoWithContext p10 (fun _ => some 5) neverCancelCtx (fun _ => 0)).result
      = some (RetryErr.op 5) := by
  have h := C10_nonpositive_attempts_once p10 (fun _ => some 5)
    neverCancelCtx (fun _ => 0) (by decide) rfl
  exact ⟨h.2.1, h.2.2.trans rfl⟩

end OrderService
